import Mathlib

/-!
Shallow embedding of the `ai-labeler` GitHub Action (Python sources under
`src/ai_labeler/`) together with theorems settling the spec claims about it.

Conventions used throughout:
* Python `str` is Lean `String` (ASCII texts), `None`-able values are `Option`,
  Python lists are Lean `List`.
* Code that can raise is embedded as `Except`; an escaping exception is
  `Except.error`.
* Side-effecting GitHub API calls are abstracted by explicit parameters
  (fetched data, creation outcomes) or by an action trace.
-/

namespace AiLabeler

/-- The `Label` pydantic model (`github.py`): name with optional description and
instructions. -/
structure Label where
  name : String
  description : Option String := none
  instructions : Option String := none
deriving DecidableEq, Repr

/-- The `LabelConfig` pydantic model (`config_parser.py`). -/
structure LabelConfig where
  name : String
  description : Option String := none
  instructions : Option String := none
deriving DecidableEq, Repr

/-- The `Config` pydantic model (`config_parser.py`): the shape passed to
`get_available_labels_from_config`. -/
structure Config where
  instructions : Option String := none
  labels : List LabelConfig := []
  context_files : List String := []
deriving DecidableEq, Repr

/-- Python truthiness of an optional string: `None` and `""` are falsy. -/
def pyTruthy : Option String → Bool
  | none => false
  | some s => !(s == "")

/-- Python `a or b` on optional strings: `a` when truthy, otherwise `b`. -/
def pyOrOpt (a b : Option String) : Option String :=
  if pyTruthy a then a else b

/-- `Path(a) / b`, modelled as joining with a separator. -/
def pathJoin (a b : String) : String := a ++ "/" ++ b

/-- Python's `str.lower()` over ASCII text. -/
def pyLower (s : String) : String := String.mk (s.data.map Char.toLower)

/-- The name list of a label catalog, `[label.name for label in labels]`. -/
def labelNames (labels : List Label) : List String := labels.map Label.name

/-- The dynamically built enumeration `LabelChoice` of `labeling_workflow`
(`ai.py` line 87): `Enum("LabelChoice", {label.name: label.name for label in
labels}, type=str)`.  Its members' values are exactly the catalog's names, so a
value of this type is a string that belongs to the catalog. -/
def LabelChoice (labels : List Label) := {s : String // s ∈ labelNames labels}

/-- `labeling_workflow` (`ai.py` lines 79-128): the model call is constrained to
`result_type=list[LabelChoice]`; the (otherwise arbitrary) model decision is the
`decision` argument, and the function returns
`[label.value for label in decision]`. -/
def labeling_workflow (labels : List Label) (decision : List (LabelChoice labels)) :
    List String :=
  decision.map Subtype.val

/-- `repo_names = {label.name.lower() for label in repo_labels}` (`github.py`
line 116), computed once before the creation loop; set membership is list
membership here. -/
def repoNamesLower (repo_labels : List Label) : List String :=
  repo_labels.map (fun l => pyLower l.name)

/-- The `Label(...)` record appended for a missing config label (`github.py`
lines 123-129): `description=cfg.description or ""` (so `None` and `""` both
become `""`), `instructions=cfg.instructions`. -/
def synthLabel (cfg : LabelConfig) : Label :=
  { name := cfg.name
    description := some (cfg.description.getD "")
    instructions := cfg.instructions }

/-- The creation loop of `get_available_labels_from_config` (`github.py` lines
119-129).  `createFails name = true` models the `create_label` call raising for
that name; the exception escapes the whole function, modelled by `Except.error`
carrying the failing name.  On success the result is the list of labels the loop
appended, in config order. -/
def createMissingLabels (createFails : String → Bool) (repo_names : List String) :
    List LabelConfig → Except String (List Label)
  | [] => .ok []
  | cfg :: rest =>
    if pyLower cfg.name ∈ repo_names then
      createMissingLabels createFails repo_names rest
    else if createFails cfg.name then
      .error cfg.name
    else
      match createMissingLabels createFails repo_names rest with
      | .ok tail => .ok (synthLabel cfg :: tail)
      | .error e => .error e

/-- `config_map = {cfg.name: cfg for cfg in config.labels}` (`github.py` line
137): an exact-name lookup; on duplicate names the last entry wins, as in a
Python dict comprehension. -/
def configMapFind (cfgs : List LabelConfig) (n : String) : Option LabelConfig :=
  cfgs.reverse.find? (fun c => c.name == n)

/-- The overlay of one label (`github.py` lines 140-148): if the label's name is
a key of `config_map`, rebuild it with `description=cfg.description or
label.description` and `instructions=cfg.instructions`; otherwise keep it. -/
def overlayOne (cfgs : List LabelConfig) (l : Label) : Label :=
  match configMapFind cfgs l.name with
  | some cfg =>
    { name := l.name
      description := pyOrOpt cfg.description l.description
      instructions := cfg.instructions }
  | none => l

/-- The overlay pass over the working list (`github.py` lines 139-148). -/
def overlayStep (cfgs : List LabelConfig) (working : List Label) : List Label :=
  working.map (overlayOne cfgs)

/-- `get_available_labels_from_config` (`github.py` lines 104-150) at the level
of list values: create missing config labels (appending them after the repo
labels), optionally filter to exact config names, then overlay config data. -/
def get_available_labels_from_config (createFails : String → Bool)
    (repo_labels : List Label) (config : Config) (include_repo_labels : Bool) :
    Except String (List Label) :=
  match createMissingLabels createFails (repoNamesLower repo_labels) config.labels with
  | .error e => .error e
  | .ok created =>
    let working := repo_labels ++ created
    let config_names := config.labels.map LabelConfig.name
    let filtered := if include_repo_labels then working
      else working.filter (fun l => decide (l.name ∈ config_names))
    .ok (overlayStep config.labels filtered)

/-- The oracle for runs in which every `create_label` call succeeds. -/
def pyNoFail : String → Bool := fun _ => false

/-- The labels the creation loop appends when every creation succeeds: the
synthesized labels of the config entries whose lowercased name is not among the
repo labels' lowercased names. -/
def missingLabels (repo_labels : List Label) (cfgs : List LabelConfig) : List Label :=
  (cfgs.filter (fun c => !decide (pyLower c.name ∈ repoNamesLower repo_labels))).map synthLabel

/-- The name sequence `get_available_labels_from_config` produces on a
no-failure run: kept repository labels first, in their original order, then the
newly created config-only labels in config declaration order. -/
def expectedNames (repo_labels : List Label) (config : Config)
    (include_repo_labels : Bool) : List String :=
  (repo_labels.filter
      (fun l => include_repo_labels
        || decide (l.name ∈ config.labels.map LabelConfig.name))).map Label.name
    ++ (config.labels.filter
      (fun c => !decide (pyLower c.name ∈ repoNamesLower repo_labels))).map LabelConfig.name

/-- Bool form of: every config name that matches some repo label name
case-insensitively also matches it exactly. -/
def caseConsistent (repo_labels : List Label) (cfgs : List LabelConfig) : Bool :=
  cfgs.all fun cfg => repo_labels.all fun l =>
    !(pyLower cfg.name == pyLower l.name) || (cfg.name == l.name)

/-- Bool form of: the lowercased strings of the list are pairwise distinct. -/
def lowerNodup (names : List String) : Bool :=
  decide (names.map pyLower).Nodup

/-- Characters matched by Python's `\s` (over ASCII text). -/
def isPySpace (c : Char) : Bool :=
  c == ' ' || c == '\t' || c == '\n' || c == '\x0b' || c == '\x0c' || c == '\x0d'

/-- Characters matched by Python's `\d`. -/
def isPyDigit (c : Char) : Bool := '0' ≤ c && c ≤ '9'

/-- Characters matched by Python's `[\w-]` (over ASCII text). -/
def isWordDash (c : Char) : Bool :=
  ('a' ≤ c && c ≤ 'z') || ('A' ≤ c && c ≤ 'Z') || isPyDigit c || c == '_' || c == '-'

/-- Consume the maximal digit run after `acc`, returning its value and the rest. -/
def munchNat (acc : Nat) : List Char → Nat × List Char
  | [] => (acc, [])
  | c :: cs =>
    if isPyDigit c then munchNat (acc * 10 + (c.toNat - 48)) cs else (acc, c :: cs)

/-- A greedy `(\d+)`: the decimal value of the maximal nonempty digit run and
the rest; `none` when the first character is not a digit. -/
def digitRun : List Char → Option (Nat × List Char)
  | [] => none
  | c :: cs => if isPyDigit c then some (munchNat 0 (c :: cs)) else none

/-- The trailer `(?:\s|$)` of the first regex in `parse_github_links`
(`github.py` line 163): consumes one whitespace character, or matches the end of
the input without consuming. -/
def match1Trailer : List Char → Option (List Char)
  | [] => some []
  | c :: cs => if isPySpace c then some cs else none

/-- `#(\d+)(?:\s|$)` at the current position. -/
def match1Core : List Char → Option (Nat × List Char)
  | '#' :: cs =>
    match digitRun cs with
    | some (n, rest) =>
      match match1Trailer rest with
      | some rest2 => some (n, rest2)
      | none => none
    | none => none
  | _ => none

/-- One anchored attempt of `(?:^|\s)#(\d+)(?:\s|$)` at the current position;
`atStart` is true only at position 0 (where `^` matches, and is tried before the
`\s` alternative).  On success, returns the captured number and the input after
the match (the consumed trailing whitespace included). -/
def match1At (cs : List Char) (atStart : Bool) : Option (Nat × List Char) :=
  match (if atStart then match1Core cs else none) with
  | some r => some r
  | none =>
    match cs with
    | c :: rest => if isPySpace c then match1Core rest else none
    | [] => none

/-- The `re.finditer` scan for `(?:^|\s)#(\d+)(?:\s|$)` (`github.py` line 163):
try a match at each position from left to right; after a match, resume after the
consumed text (matches never overlap).  Every match consumes at least two
characters and a failed attempt advances one position, so `fuel = length + 1`
always suffices. -/
def scan1 : Nat → List Char → Bool → List Nat
  | 0, _, _ => []
  | _ + 1, [], _ => []
  | fuel + 1, c :: cs, atStart =>
    match match1At (c :: cs) atStart with
    | some (n, rest) => n :: scan1 fuel rest false
    | none => scan1 fuel cs false

/-- Drop the maximal (possibly empty) `[\w-]` run. -/
def dropWordRun : List Char → List Char
  | [] => []
  | c :: cs => if isWordDash c then dropWordRun cs else c :: cs

/-- A greedy `[\w-]+`: the input after the maximal nonempty word-dash run, or
`none` when the first character is not in `[\w-]`.  Since `[\w-]` contains
neither `/` nor `#`, only the maximal run can ever be followed by them, so no
backtracking into shorter runs is needed. -/
def wordRun : List Char → Option (List Char)
  | [] => none
  | c :: cs => if isWordDash c then some (dropWordRun cs) else none

/-- `#(\d+)` at the current position. -/
def match2Hash : List Char → Option (Nat × List Char)
  | '#' :: cs => digitRun cs
  | _ => none

/-- One anchored attempt of `(?:[\w-]+/)?[\w-]+#(\d+)` (`github.py` line 167) at
the current position: a word-dash run, then either `/` + a second run + `#` +
digits (the greedy optional group) or directly `#` + digits.  When the first run
is followed by `/`, the variant without the optional group would need `#` at
that same `/`, so exactly one variant applies at any position. -/
def match2At (cs : List Char) : Option (Nat × List Char) :=
  match wordRun cs with
  | none => none
  | some afterRun1 =>
    match afterRun1 with
    | '/' :: cs2 =>
      match wordRun cs2 with
      | none => none
      | some afterRun2 => match2Hash afterRun2
    | _ => match2Hash afterRun1

/-- The `re.finditer` scan for `(?:[\w-]+/)?[\w-]+#(\d+)` (`github.py` line
167), non-overlapping and left-to-right; every match consumes at least three
characters, so `fuel = length + 1` always suffices. -/
def scan2 : Nat → List Char → List Nat
  | 0, _ => []
  | _ + 1, [] => []
  | fuel + 1, c :: cs =>
    match match2At (c :: cs) with
    | some (n, rest) => n :: scan2 fuel rest
    | none => scan2 fuel cs

/-- The numbers collected by the first `finditer` pass of `parse_github_links`,
in match order. -/
def matchesBareRefs (cs : List Char) : List Nat := scan1 (cs.length + 1) cs true

/-- The numbers collected by the second `finditer` pass of
`parse_github_links`, in match order. -/
def matchesRepoRefs (cs : List Char) : List Nat := scan2 (cs.length + 1) cs

/-- Insert a number into an ascending duplicate-free list, keeping it ascending
and duplicate-free. -/
def insertSortedNat (n : Nat) : List Nat → List Nat
  | [] => [n]
  | m :: ms =>
    if n < m then n :: m :: ms
    else if n = m then m :: ms
    else m :: insertSortedNat n ms

/-- Python's `sorted(numbers)` for a set of collected numbers: the ascending
enumeration of the distinct elements. -/
def pySortedNatSet (l : List Nat) : List Nat := l.foldr insertSortedNat []

/-- `parse_github_links` (`github.py` lines 153-170): union the numbers found by
the two regex passes into a set and return them sorted ascending. -/
def parse_github_links (cs : List Char) : List Nat :=
  pySortedNatSet (matchesBareRefs cs ++ matchesRepoRefs cs)

/-- The claim's own reading of reference extraction (spec side, for comparison
with the code): the numbers of every occurrence of the format `#N` (a `#`
followed by a maximal digit run) anywhere in the text, regardless of
surrounding characters. -/
def specHashOccurrences : List Char → List Nat
  | [] => []
  | '#' :: cs =>
    match digitRun cs with
    | some (n, _) => n :: specHashOccurrences cs
    | none => specHashOccurrences cs
  | _ :: cs => specHashOccurrences cs

/-- Optional description/instructions block of one config label entry. -/
structure YamlProps where
  description : Option String := none
  instructions : Option String := none
deriving DecidableEq, Repr

/-- One entry of the `labels` list of the YAML config document: a bare string,
or a single-key mapping `name -> props` whose value may be null. -/
inductive YamlLabelEntry where
  | str (name : String)
  | mapping (name : String) (props : Option YamlProps)
deriving DecidableEq, Repr

/-- A parsed YAML config document: the top-level keys read by `Config.load`
(`label_workflow.py`), each possibly absent. -/
structure YamlDoc where
  instructions : Option String := none
  include_repo_labels : Option Bool := none
  labels : Option (List YamlLabelEntry) := none
  context_files : Option (List String) := none
deriving DecidableEq, Repr

/-- The per-entry branch of the config label parsing loop (`label_workflow.py`
lines 47-63): a bare string becomes a name-only `LabelConfig`; for a mapping,
a null properties value is treated as an empty properties object. -/
def parseLabelEntry : YamlLabelEntry → LabelConfig
  | .str name => { name := name }
  | .mapping name props =>
    let p := props.getD {}
    { name := name, description := p.description, instructions := p.instructions }

namespace LabelWorkflow

/-- The `Config` dataclass of `label_workflow.py` (the revision of the config
model that carries `include_repo_labels`). -/
structure Config where
  instructions : String
  include_repo_labels : Bool
  labels : List LabelConfig
  context_files : List String
deriving DecidableEq, Repr

/-- `Config.load` (`label_workflow.py` lines 31-78): read the document at
`Path(workspace_path) / config_path`; `fs` maps a path to its parsed document,
`none` meaning the file does not exist (`FileNotFoundError`), which is caught
and answered with the all-defaults config. -/
def Config.load (fs : String → Option YamlDoc)
    (workspace_path config_path : String) : Config :=
  match fs (pathJoin workspace_path config_path) with
  | none =>
    { instructions := ""
      include_repo_labels := true
      labels := []
      context_files := [] }
  | some data =>
    { instructions := data.instructions.getD ""
      include_repo_labels := data.include_repo_labels.getD true
      labels := (data.labels.getD []).map parseLabelEntry
      context_files := data.context_files.getD [] }

end LabelWorkflow

/-- `Config.load_context_files` (`config_parser.py` lines 63-78): for each
declared path, read the file at `Path(repo_root_path) / file_path` (`fs` maps a
resolved path to its contents, `none` meaning `FileNotFoundError`); a missing
file records nothing for that path (a warning is printed) and the loop
continues.  The Python dict is modelled as a lookup function built by in-order
updates, keyed by the original declared path. -/
def load_context_files (fs : String → Option String) (repo_root_path : String)
    (context_files : List String) : String → Option String :=
  context_files.foldl
    (fun ctx file_path =>
      match fs (pathJoin repo_root_path file_path) with
      | some content => fun k => if k == file_path then some content else ctx k
      | none => ctx)
    (fun _ => none)

/-- One external action performed by `apply_labels` (`github.py` lines 62-73). -/
inductive GhAction where
  | getRepo (repo : String)
  | getIssue (number : Nat)
  | addToLabels (number : Nat) (labels : List String)
  | printed (s : String)
deriving DecidableEq, Repr

/-- Python's `str` of a list of strings as interpolated by the dry-run f-string
(for label names without quote or escape characters); `\x27` is the ASCII
apostrophe. -/
def pyStrList (labels : List String) : String :=
  "[" ++ String.intercalate ", " (labels.map (fun s => "\x27" ++ s ++ "\x27")) ++ "]"

/-- `apply_labels` (`github.py` lines 62-73) as its trace of external actions.
`repo` abstracts `get_repo(os.getenv("GITHUB_REPOSITORY"))` and `number`
abstracts `get_event_number()`, both of which run before the dry-run check. -/
def apply_labels (repo : String) (number : Nat) (labels : List String)
    (dry_run : Bool) : List GhAction :=
  [GhAction.getRepo repo] ++
    (if dry_run then
      [GhAction.printed
        ("Dry run: Would apply labels " ++ pyStrList labels
          ++ " to #" ++ toString number)]
    else
      [GhAction.getIssue number, GhAction.addToLabels number labels])

/-- The process state relevant to the label cache: a heap of Python list
objects (a reference is an index into `store`) and the module-level
`_label_cache` dict mapping a repository name to the reference it holds. -/
structure GhState where
  store : List (List Label)
  cache : String → Option Nat

/-- Dereference a list object. -/
def storeGet (s : GhState) (r : Nat) : Option (List Label) := s.store.get? r

/-- `get_available_labels` (`github.py` lines 45-59) over the explicit object
store; `fetch` abstracts the labels the GitHub API returns.  On a cache hit the
function returns the cached list object itself; on a miss it allocates the
fetched result, stores that object in the cache, and returns `result.copy()` —
a second, distinct object with the same contents. -/
def get_available_labels (fetch : List Label) (repo : String) (s : GhState) :
    Nat × GhState :=
  match s.cache repo with
  | some r => (r, s)
  | none =>
    let r := s.store.length
    let store1 := s.store ++ [fetch]
    let cache1 := fun k => if k == repo then some r else s.cache k
    (store1.length, { store := store1 ++ [fetch], cache := cache1 })

/-- The mutating part of `get_available_labels_from_config` (`github.py` lines
119-129) acting on the list object `r` it received from `get_available_labels`:
with every creation succeeding, the loop appends the synthesized missing labels
to that object in place. -/
def appendMissingLabels (s : GhState) (r : Nat) (cfgs : List LabelConfig) :
    GhState :=
  match storeGet s r with
  | none => s
  | some repo_labels =>
    match createMissingLabels pyNoFail (repoNamesLower repo_labels) cfgs with
    | .ok created => { s with store := s.store.set r (repo_labels ++ created) }
    | .error _ => s

/-- Whether a reconciler run ended in an escaped exception. -/
def isErrorResult : Except String (List Label) → Bool
  | .error _ => true
  | .ok _ => false

/-- Concrete config list used by the C4 witness. -/
def cfgsW4 : List LabelConfig :=
  [{ name := "bug", description := some "D", instructions := some "I" }]

/-- Concrete label used by the C4 witness. -/
def labelW4 : Label := { name := "bug", description := some "orig" }

/-- Concrete process state used by the C10 witness: one cached list object for
repository `octo/r`. -/
def stateW : GhState :=
  { store := [[{ name := "bug" }]]
    cache := fun k => if k == "octo/r" then some 0 else none }

/-- Concrete config list used by the C10 witness. -/
def cfgsW10 : List LabelConfig := [{ name := "new" }]

end AiLabeler

deriving instance DecidableEq for Except

namespace AiLabeler

theorem createMissingLabels_error (createFails : String → Bool) (rn : List String) :
    ∀ (cfgs : List LabelConfig) (cfg : LabelConfig), cfg ∈ cfgs →
      pyLower cfg.name ∉ rn → createFails cfg.name = true →
      ∃ e, createMissingLabels createFails rn cfgs = .error e := by
  intro cfgs
  induction cfgs with
  | nil => intro cfg h; cases h
  | cons a rest ih =>
    intro cfg hmem hmiss hfail
    by_cases ha : pyLower a.name ∈ rn
    · rcases List.mem_cons.mp hmem with rfl | hrest
      · exact absurd ha hmiss
      · obtain ⟨e, he⟩ := ih cfg hrest hmiss hfail
        exact ⟨e, by simp [createMissingLabels, ha, he]⟩
    · by_cases haf : createFails a.name = true
      · exact ⟨a.name, by simp [createMissingLabels, ha, haf]⟩
      · rcases List.mem_cons.mp hmem with rfl | hrest
        · exact absurd hfail haf
        · obtain ⟨e, he⟩ := ih cfg hrest hmiss hfail
          exact ⟨e, by simp [createMissingLabels, ha, haf, he]⟩

/-- C1: for every label catalog handed to `labeling_workflow` and every decision
the constrained model call can produce, each returned name is the name of some
label in the catalog — the result type is the enumeration built from exactly the
catalog's names, so the output is a subset of them by construction. -/
theorem labeling_workflow_closed_vocabulary (labels : List Label)
    (decision : List (LabelChoice labels)) :
    labeling_workflow labels decision ⊆ labelNames labels := by
  intro n hn
  obtain ⟨x, _, rfl⟩ := List.mem_map.mp hn
  exact x.property

theorem labeling_workflow_closed_vocabulary_witness :
    labeling_workflow [{ name := "bug" }] [⟨"bug", by decide⟩]
      ⊆ labelNames [{ name := "bug" }] :=
  labeling_workflow_closed_vocabulary _ _

/-- C2 counterexample: with one config label `x` missing from an empty
repository and its creation failing, `get_available_labels_from_config` ends in
the escaped exception — it does not log-and-continue, does not append the label,
and does not return normally. -/
theorem create_label_failure_ce :
    get_available_labels_from_config (fun n => n == "x") []
      { labels := [{ name := "x" }] } true = .error "x" := by decide

/-- C2 (amended): if creating a missing config-declared label fails (raises),
`get_available_labels_from_config` propagates the exception instead of
returning a catalog. -/
theorem create_label_failure_propagates (createFails : String → Bool)
    (repo_labels : List Label) (config : Config) (inc : Bool) (cfg : LabelConfig)
    (hmem : cfg ∈ config.labels)
    (hmiss : pyLower cfg.name ∉ repoNamesLower repo_labels)
    (hfail : createFails cfg.name = true) :
    isErrorResult
      (get_available_labels_from_config createFails repo_labels config inc) = true := by
  obtain ⟨e, he⟩ := createMissingLabels_error createFails (repoNamesLower repo_labels)
    config.labels cfg hmem hmiss hfail
  simp [get_available_labels_from_config, he, isErrorResult]

theorem create_label_failure_propagates_witness :
    (⟨"x", none, none⟩ : LabelConfig) ∈ ({ labels := [{ name := "x" }] } : Config).labels
      ∧ pyLower "x" ∉ repoNamesLower []
      ∧ (fun n => n == "x") "x" = true
      ∧ isErrorResult (get_available_labels_from_config (fun n => n == "x") []
          { labels := [{ name := "x" }] } true) = true :=
  ⟨by decide, by decide, by decide,
    create_label_failure_propagates (fun n => n == "x") []
      { labels := [{ name := "x" }] } true ⟨"x", none, none⟩
      (by decide) (by decide) (by decide)⟩

/-- C6: `Config.load` on a nonexistent config file path returns the
all-defaults config — empty instructions, `include_repo_labels` true, no
labels, no context files — and never raises for a missing file. -/
theorem config_load_missing_defaults (fs : String → Option YamlDoc)
    (workspace_path config_path : String)
    (h : fs (pathJoin workspace_path config_path) = none) :
    LabelWorkflow.Config.load fs workspace_path config_path
      = { instructions := "", include_repo_labels := true,
          labels := [], context_files := [] } := by
  simp [LabelWorkflow.Config.load, h]

theorem config_load_missing_defaults_witness :
    (fun _ => (none : Option YamlDoc)) (pathJoin "ws" ".github/ai-labeler.yml") = none
      ∧ LabelWorkflow.Config.load (fun _ => none) "ws" ".github/ai-labeler.yml"
          = { instructions := "", include_repo_labels := true,
              labels := [], context_files := [] } :=
  ⟨rfl, config_load_missing_defaults (fun _ => none) "ws" ".github/ai-labeler.yml" rfl⟩

theorem context_foldl_lookup (fs : String → Option String) (root : String) :
    ∀ (paths : List String) (acc : String → Option String) (p : String),
      paths.foldl
          (fun ctx file_path =>
            match fs (pathJoin root file_path) with
            | some content => fun k => if k == file_path then some content else ctx k
            | none => ctx) acc p
        = if p ∈ paths ∧ (fs (pathJoin root p)).isSome
            then fs (pathJoin root p) else acc p := by
  intro paths
  induction paths with
  | nil => intro acc p; simp
  | cons q rest ih =>
    intro acc p
    rw [List.foldl_cons, ih]
    by_cases hq : p = q
    · subst hq
      rcases hfs : fs (pathJoin root p) with _ | content
      · simp [hfs]
      · simp [hfs]
    · rcases hfs : fs (pathJoin root q) with _ | content
      · simp [hfs, hq]
      · simp [hfs, hq]

/-- C8: `load_context_files` maps each declared path to the contents of the
file resolved against the root: an entry keyed by the original declared path
exactly when the file exists, and no entry (a skipped, non-fatal read) when it
does not. -/
theorem load_context_files_keyed (fs : String → Option String) (root : String)
    (paths : List String) (p : String) (hp : p ∈ paths) :
    load_context_files fs root paths p = fs (pathJoin root p) := by
  rw [load_context_files, context_foldl_lookup]
  rcases hfs : fs (pathJoin root p) with _ | c
  · simp [hfs]
  · simp [hfs, hp]

theorem load_context_files_keyed_witness :
    "docs/a.md" ∈ ["docs/a.md", "missing.md"]
      ∧ load_context_files
          (fun k => if k == "root/docs/a.md" then some "contents" else none)
          "root" ["docs/a.md", "missing.md"] "docs/a.md" = some "contents" :=
  ⟨by decide,
    (load_context_files_keyed
        (fun k => if k == "root/docs/a.md" then some "contents" else none)
        "root" ["docs/a.md", "missing.md"] "docs/a.md" (by decide)).trans (by decide)⟩

/-- C9: with `dry_run` true, `apply_labels` performs no `add_to_labels`
mutation on the target item and prints exactly the list of labels that would
have been applied. -/
theorem apply_labels_dry_run_trace (repo : String) (number : Nat)
    (labels : List String) :
    apply_labels repo number labels true
        = [GhAction.getRepo repo,
           GhAction.printed ("Dry run: Would apply labels " ++ pyStrList labels
             ++ " to #" ++ toString number)]
      ∧ ∀ m ls, GhAction.addToLabels m ls ∉ apply_labels repo number labels true := by
  refine ⟨rfl, ?_⟩
  intro m ls h
  simp [apply_labels] at h

theorem apply_labels_dry_run_trace_witness :
    apply_labels "octo/repo" 7 ["a", "b"] true
      = [GhAction.getRepo "octo/repo",
         GhAction.printed "Dry run: Would apply labels [\x27a\x27, \x27b\x27] to #7"] := by
  rw [(apply_labels_dry_run_trace "octo/repo" 7 ["a", "b"]).1]
  decide

theorem insertSortedNat_mem (a n : Nat) :
    ∀ l : List Nat, a ∈ insertSortedNat n l ↔ a = n ∨ a ∈ l := by
  intro l
  induction l with
  | nil => simp [insertSortedNat]
  | cons m ms ih =>
    simp only [insertSortedNat]
    by_cases h1 : n < m
    · simp [h1]
    · by_cases h2 : n = m
      · subst h2
        rw [if_neg h1, if_pos rfl]
        simp only [List.mem_cons]
        tauto
      · rw [if_neg h1, if_neg h2]
        simp only [List.mem_cons, ih]
        tauto

theorem insertSortedNat_sorted (n : Nat) :
    ∀ l : List Nat, l.Sorted (· < ·) → (insertSortedNat n l).Sorted (· < ·) := by
  intro l
  induction l with
  | nil => intro _; simp [insertSortedNat]
  | cons m ms ih =>
    intro hs
    rw [List.sorted_cons] at hs
    obtain ⟨hm, hms⟩ := hs
    simp only [insertSortedNat]
    by_cases h1 : n < m
    · rw [if_pos h1, List.sorted_cons]
      refine ⟨?_, by rw [List.sorted_cons]; exact ⟨hm, hms⟩⟩
      intro b hb
      rcases List.mem_cons.mp hb with rfl | hbm
      · exact h1
      · exact h1.trans (hm b hbm)
    · by_cases h2 : n = m
      · rw [if_neg h1, if_pos h2, List.sorted_cons]
        exact ⟨hm, hms⟩
      · rw [if_neg h1, if_neg h2, List.sorted_cons]
        refine ⟨?_, ih hms⟩
        intro b hb
        rcases (insertSortedNat_mem b n ms).mp hb with rfl | hbm
        · omega
        · exact hm b hbm

theorem pySortedNatSet_mem (a : Nat) (l : List Nat) :
    a ∈ pySortedNatSet l ↔ a ∈ l := by
  induction l with
  | nil => simp [pySortedNatSet]
  | cons x xs ih =>
    simp only [pySortedNatSet, List.foldr_cons] at ih ⊢
    rw [insertSortedNat_mem, ih, List.mem_cons]

theorem pySortedNatSet_sorted (l : List Nat) :
    (pySortedNatSet l).Sorted (· < ·) := by
  induction l with
  | nil => simp [pySortedNatSet]
  | cons x xs ih =>
    simp only [pySortedNatSet, List.foldr_cons] at ih ⊢
    exact insertSortedNat_sorted x _ ih

/-- C7 counterexample: the text "see #5." contains the format `#5` in free
text (as `specHashOccurrences` records), yet `parse_github_links` returns no
numbers: the bare `#N` form is only recognized when delimited by
start-of-text/whitespace before and whitespace/end-of-text after. -/
theorem parse_github_links_ce :
    parse_github_links ("see #5.".toList) = []
      ∧ specHashOccurrences ("see #5.".toList) = [5] := by decide

/-- C7 (amended): `parse_github_links` returns the strictly ascending (hence
deduplicated and sorted) enumeration of exactly the numbers found by its two
non-overlapping left-to-right scans — bare `#N` delimited by start/whitespace
before and whitespace/end after, and `name#N` / `org/name#N` with a word or
dash character immediately before `#` — and on the spec's example text
"see #5 and myrepo#5 and org/myrepo#9" it returns `[5, 9]`. -/
theorem parse_github_links_props :
    (∀ cs : List Char, (parse_github_links cs).Sorted (· < ·))
      ∧ (∀ (cs : List Char) (n : Nat),
          n ∈ parse_github_links cs ↔ n ∈ matchesBareRefs cs ∨ n ∈ matchesRepoRefs cs)
      ∧ parse_github_links ("see #5 and myrepo#5 and org/myrepo#9".toList) = [5, 9] := by
  refine ⟨fun cs => pySortedNatSet_sorted _, fun cs n => ?_, by decide⟩
  rw [parse_github_links, pySortedNatSet_mem, List.mem_append]

theorem parse_github_links_props_witness :
    parse_github_links ("see #5 and myrepo#5 and org/myrepo#9".toList) = [5, 9] :=
  parse_github_links_props.2.2

/-- C4 counterexample: repo label `bug` matches config label `Bug` only
case-insensitively; the overlay leaves it unchanged — neither the config's
description nor its instructions are applied — because the lookup map is keyed
by exact name. -/
theorem overlay_lookup_ce :
    get_available_labels_from_config pyNoFail
        [{ name := "bug", description := some "orig" }]
        { labels := [{ name := "Bug", description := some "D",
                       instructions := some "I" }] }
        true
      = .ok [{ name := "bug", description := some "orig" }]
      ∧ pyLower "bug" = pyLower "Bug" := by decide

/-- C4 (amended): in the overlay step, a label in the working list whose name
matches a `LabelConfig` by exact (case-sensitive) lookup — last config entry
winning on duplicate names — yields an output record keeping its name, with the
config's description when present and non-empty (else the original
description), and with the config's instructions; a label with no exact-name
config entry passes through unchanged. -/
theorem overlay_exact_match (cfgs : List LabelConfig) (working : List Label)
    (l : Label) (hl : l ∈ working) :
    (match configMapFind cfgs l.name with
      | some cfg =>
        { name := l.name, description := pyOrOpt cfg.description l.description,
          instructions := cfg.instructions }
      | none => l) ∈ overlayStep cfgs working := by
  have hmem := List.mem_map_of_mem (overlayOne cfgs) hl
  rcases h : configMapFind cfgs l.name with _ | cfg
  · simpa [overlayStep, overlayOne, h] using hmem
  · simpa [overlayStep, overlayOne, h] using hmem

theorem createMissingLabels_noFail (rn : List String) :
    ∀ cfgs : List LabelConfig,
      createMissingLabels pyNoFail rn cfgs
        = .ok ((cfgs.filter (fun c => !decide (pyLower c.name ∈ rn))).map synthLabel) := by
  intro cfgs
  induction cfgs with
  | nil => rfl
  | cons a rest ih =>
    by_cases ha : pyLower a.name ∈ rn
    · simp [createMissingLabels, ha, ih, pyNoFail]
    · simp [createMissingLabels, ha, ih, pyNoFail]

theorem overlayOne_name (cfgs : List LabelConfig) (l : Label) :
    (overlayOne cfgs l).name = l.name := by
  rcases h : configMapFind cfgs l.name with _ | cfg <;> simp [overlayOne, h]

theorem overlayStep_names (cfgs : List LabelConfig) (ws : List Label) :
    (overlayStep cfgs ws).map Label.name = ws.map Label.name := by
  simp only [overlayStep, List.map_map]
  exact List.map_congr_left fun a _ => overlayOne_name cfgs a

theorem created_filter_all (cfgs : List LabelConfig) (p : LabelConfig → Bool) :
    ((cfgs.filter p).map synthLabel).filter
        (fun l => decide (l.name ∈ cfgs.map LabelConfig.name))
      = (cfgs.filter p).map synthLabel := by
  rw [List.filter_eq_self]
  intro l hl
  obtain ⟨c, hc, rfl⟩ := List.mem_map.mp hl
  simp only [synthLabel, decide_eq_true_eq]
  exact List.mem_map_of_mem LabelConfig.name (List.mem_of_mem_filter hc)

theorem names_eq (repo_labels : List Label) (config : Config) (inc : Bool) :
    Except.map (fun ls => ls.map Label.name)
        (get_available_labels_from_config pyNoFail repo_labels config inc)
      = .ok (expectedNames repo_labels config inc) := by
  simp only [get_available_labels_from_config, createMissingLabels_noFail, Except.map]
  cases inc with
  | true =>
    simp only [expectedNames, Bool.true_or, List.filter_true, overlayStep_names,
      List.map_append, List.map_map, Except.ok.injEq, ite_true]
    congr 1
  | false =>
    rw [if_neg Bool.false_ne_true]
    simp only [overlayStep_names, List.filter_append, created_filter_all,
      expectedNames, Bool.false_or, List.map_append, List.map_map, Except.ok.injEq]
    congr 1

theorem caseConsistent_spec (repo_labels : List Label) (cfgs : List LabelConfig)
    (h : caseConsistent repo_labels cfgs = true) :
    ∀ cfg ∈ cfgs, ∀ l ∈ repo_labels,
      pyLower cfg.name = pyLower l.name → cfg.name = l.name := by
  intro cfg hcfg l hl heq
  simp only [caseConsistent, List.all_eq_true] at h
  have h2 := h cfg hcfg l hl
  simp only [Bool.or_eq_true, Bool.not_eq_true', beq_eq_false_iff_ne, ne_eq,
    beq_iff_eq] at h2
  tauto

/-- C3 counterexample: the config declares `Bug` and the repository has `bug`;
with include_repo_labels false the creation step sees the name as already
present (case-insensitive check) but the filter keeps only exact config names,
so the returned catalog is empty instead of containing exactly the
config-declared name. -/
theorem config_only_filter_ce :
    get_available_labels_from_config pyNoFail [{ name := "bug" }]
        { labels := [{ name := "Bug" }] } false = .ok []
      ∧ ({ labels := [{ name := "Bug" }] } : Config).labels.map LabelConfig.name
          = ["Bug"] := by
  decide

/-- C3 (amended): with include_repo_labels false and every creation succeeding,
provided each config name that matches a repository label case-insensitively
also matches it exactly, the returned catalog's set of names is exactly the set
of config-declared names, regardless of how many repository labels exist. -/
theorem config_only_filter_names (repo_labels : List Label) (config : Config)
    (h : caseConsistent repo_labels config.labels = true) :
    Except.map (fun ls => (ls.map Label.name).toFinset)
        (get_available_labels_from_config pyNoFail repo_labels config false)
      = .ok (config.labels.map LabelConfig.name).toFinset := by
  have hcase := caseConsistent_spec repo_labels config.labels h
  have hn := names_eq repo_labels config false
  rcases hres : get_available_labels_from_config pyNoFail repo_labels config false
    with e | ls
  · rw [hres] at hn
    simp [Except.map] at hn
  · rw [hres] at hn
    simp only [Except.map, Except.ok.injEq] at hn ⊢
    rw [hn]
    ext n
    simp only [List.mem_toFinset, expectedNames, List.mem_append, List.mem_map,
      List.mem_filter, Bool.false_or, decide_eq_true_eq, Bool.not_eq_true']
    constructor
    · rintro (⟨l, ⟨_, hq⟩, rfl⟩ | ⟨c, ⟨hc, _⟩, rfl⟩)
      · exact hq
      · exact ⟨c, hc, rfl⟩
    · rintro ⟨c, hc, rfl⟩
      by_cases hcl : pyLower c.name ∈ repoNamesLower repo_labels
      · left
        simp only [repoNamesLower, List.mem_map] at hcl
        obtain ⟨l, hl, hlow⟩ := hcl
        have hcc : c.name = l.name := hcase c hc l hl hlow.symm
        exact ⟨l, ⟨hl, ⟨c, hc, hcc⟩⟩, hcc.symm⟩
      · right
        refine ⟨c, ⟨hc, ?_⟩, rfl⟩
        simpa using hcl

theorem config_only_filter_names_witness :
    caseConsistent [{ name := "bug", description := some "d" }]
        ({ labels := [{ name := "bug" }, { name := "feature" }] } : Config).labels = true
      ∧ Except.map (fun ls => (ls.map Label.name).toFinset)
          (get_available_labels_from_config pyNoFail
            [{ name := "bug", description := some "d" }]
            { labels := [{ name := "bug" }, { name := "feature" }] } false)
        = .ok (({ labels := [{ name := "bug" }, { name := "feature" }] } : Config).labels.map
            LabelConfig.name).toFinset :=
  ⟨by decide,
    config_only_filter_names [{ name := "bug", description := some "d" }]
      { labels := [{ name := "bug" }, { name := "feature" }] } (by decide)⟩

/-- C5 counterexample: with an empty repository and a config declaring the same
name twice, the name snapshot is taken once before the creation loop, so both
entries are created and appended and the output holds two labels with the same
(case-insensitively equal) name. -/
theorem reconciler_dup_ce :
    get_available_labels_from_config pyNoFail []
        { labels := [{ name := "x" }, { name := "x" }] } true
      = .ok [{ name := "x", description := some "" },
             { name := "x", description := some "" }]
      ∧ lowerNodup ["x", "x"] = false := by decide

/-- C5 (amended): on a run with every creation succeeding, provided the
repository label names are pairwise distinct case-insensitively and the
config-declared names are too, the output names are the kept repository labels
first in their original order, then the newly created config-only labels in
config declaration order, and no two output names are equal
case-insensitively. -/
theorem reconciler_order_nodup (repo_labels : List Label) (config : Config)
    (inc : Bool)
    (h1 : lowerNodup (repo_labels.map Label.name) = true)
    (h2 : lowerNodup (config.labels.map LabelConfig.name) = true) :
    Except.map (fun ls => ls.map Label.name)
        (get_available_labels_from_config pyNoFail repo_labels config inc)
      = .ok (expectedNames repo_labels config inc)
    ∧ lowerNodup (expectedNames repo_labels config inc) = true := by
  refine ⟨names_eq repo_labels config inc, ?_⟩
  simp only [lowerNodup, decide_eq_true_eq] at h1 h2 ⊢
  rw [expectedNames, List.map_append, List.nodup_append]
  refine ⟨?_, ?_, ?_⟩
  · exact h1.sublist (((List.filter_sublist repo_labels).map Label.name).map pyLower)
  · exact h2.sublist (((List.filter_sublist config.labels).map LabelConfig.name).map pyLower)
  · intro a haA haB
    simp only [List.map_map, List.mem_map, List.mem_filter, Function.comp] at haA haB
    obtain ⟨l, ⟨hl, _⟩, rfl⟩ := haA
    obtain ⟨c, ⟨_, hcmiss⟩, hceq⟩ := haB
    simp only [Bool.not_eq_true', decide_eq_false_iff_not] at hcmiss
    apply hcmiss
    rw [hceq]
    exact List.mem_map_of_mem (fun l => pyLower l.name) hl

theorem reconciler_order_nodup_witness :
    lowerNodup (([{ name := "bug" }] : List Label).map Label.name) = true
      ∧ lowerNodup (({ labels := [{ name := "New" }] } : Config).labels.map
          LabelConfig.name) = true
      ∧ (Except.map (fun ls => ls.map Label.name)
            (get_available_labels_from_config pyNoFail [{ name := "bug" }]
              { labels := [{ name := "New" }] } true)
          = .ok (expectedNames [{ name := "bug" }] { labels := [{ name := "New" }] } true)
        ∧ lowerNodup (expectedNames [{ name := "bug" }]
            { labels := [{ name := "New" }] } true) = true) :=
  ⟨by decide, by decide,
    reconciler_order_nodup [{ name := "bug" }] { labels := [{ name := "New" }] } true
      (by decide) (by decide)⟩

theorem overlay_exact_match_witness :
    labelW4 ∈ [labelW4]
      ∧ (match configMapFind cfgsW4 labelW4.name with
          | some cfg =>
            { name := labelW4.name,
              description := pyOrOpt cfg.description labelW4.description,
              instructions := cfg.instructions }
          | none => labelW4) ∈ overlayStep cfgsW4 [labelW4] :=
  ⟨by decide, overlay_exact_match cfgsW4 [labelW4] labelW4 (by decide)⟩

/-- C10: `get_available_labels` returns a defensive copy only on a cache miss;
on a cache hit it returns the very list object stored in the per-repository
cache, so labels appended by `get_available_labels_from_config` after a hit
mutate the cache and appear in the results of every subsequent
`get_available_labels` call for that repository within the same process. -/
theorem label_cache_aliasing (fetch fetch2 old : List Label) (repo : String)
    (s : GhState) (r : Nat) (cfgs : List LabelConfig) :
    (s.cache repo = some r → get_available_labels fetch repo s = (r, s))
      ∧ (s.cache repo = none →
          (get_available_labels fetch repo s).1 = s.store.length + 1
            ∧ ((get_available_labels fetch repo s).2).cache repo = some s.store.length
            ∧ storeGet ((get_available_labels fetch repo s).2) (s.store.length + 1)
                = some fetch
            ∧ storeGet ((get_available_labels fetch repo s).2) s.store.length
                = some fetch
            ∧ storeGet (appendMissingLabels ((get_available_labels fetch repo s).2)
                ((get_available_labels fetch repo s).1) cfgs) s.store.length
                = some fetch)
      ∧ (s.cache repo = some r → storeGet s r = some old →
          storeGet (appendMissingLabels s r cfgs) r
              = some (old ++ missingLabels old cfgs)
            ∧ (appendMissingLabels s r cfgs).cache repo = some r
            ∧ get_available_labels fetch2 repo (appendMissingLabels s r cfgs)
                = (r, appendMissingLabels s r cfgs)) := by
  refine ⟨?_, ?_, ?_⟩
  · intro h
    simp [get_available_labels, h]
  · intro h
    simp only [get_available_labels, h]
    refine ⟨by simp, by simp, ?_, ?_, ?_⟩
    · simp only [storeGet]
      rw [show s.store.length + 1 = (s.store ++ [fetch]).length by simp]
      exact List.get?_concat_length (s.store ++ [fetch]) fetch
    · simp only [storeGet]
      rw [List.get?_append (by simp)]
      exact List.get?_concat_length s.store fetch
    · have hget : ((s.store ++ [fetch]) ++ [fetch]).get? ((s.store ++ [fetch]).length)
          = some fetch := List.get?_concat_length (s.store ++ [fetch]) fetch
      simp only [appendMissingLabels, storeGet, hget, createMissingLabels_noFail]
      rw [List.get?_set]
      rw [if_neg (by simp)]
      rw [List.get?_append (by simp)]
      exact List.get?_concat_length s.store fetch
  · intro h hold
    have hset : appendMissingLabels s r cfgs
        = { s with store := s.store.set r (old ++ missingLabels old cfgs) } := by
      simp only [appendMissingLabels, hold, createMissingLabels_noFail]
      rfl
    refine ⟨?_, by rw [hset]; exact h, ?_⟩
    · rw [hset]
      simp only [storeGet]
      rw [List.get?_set, if_pos rfl]
      simp only [storeGet] at hold
      rw [hold]
      rfl
    · rw [hset]
      simp [get_available_labels, h]

theorem label_cache_aliasing_witness :
    stateW.cache "octo/r" = some 0
      ∧ storeGet stateW 0 = some [{ name := "bug" }]
      ∧ (storeGet (appendMissingLabels stateW 0 cfgsW10) 0
            = some ([{ name := "bug" }] ++ missingLabels [{ name := "bug" }] cfgsW10)
        ∧ (appendMissingLabels stateW 0 cfgsW10).cache "octo/r" = some 0
        ∧ get_available_labels [] "octo/r" (appendMissingLabels stateW 0 cfgsW10)
            = (0, appendMissingLabels stateW 0 cfgsW10)) :=
  ⟨by decide, by decide,
    (label_cache_aliasing [] [] [{ name := "bug" }] "octo/r" stateW 0 cfgsW10).2.2
      (by decide) (by decide)⟩

end AiLabeler
